import Mathlib

/-!
# TO-DO backend (`src/index.js`)

A shallow embedding of the Express application of `src/index.js`: the two
Mongoose collections (`User`, `Task`), the auth middleware and the seven route
handlers, followed by theorems about them.

Modelling conventions.

* The document store is a pair of lists in insertion order (the natural order
  of a collection) together with the generator of fresh `ObjectId`s. An
  `ObjectId` is a natural number; `new User(..)` and `new Task(..)` take the
  next one.
* The libraries the file calls are parameters, gathered in `Env`:
  `bcrypt.hash`, `bcrypt.compare`, `jwt.sign` and `jwt.verify`. The salt drawn
  by `bcrypt.hash` and the clock read by `jwt.sign` and `jwt.verify` are inputs
  of the request.
* A field of the body of `POST /tasks` is any JSON value or is absent
  (`none`): the handler tests it for truthiness before Mongoose casts it. The
  other bodies carry the strings the schemas declare, and the `:id` path
  parameter is a well-formed `ObjectId`.
* A handler is a function from the store to a response and the next store:
  requests are processed one at a time. The handler of `POST /tasks` may fail
  without a response (`none`), when its `save()` rejects.
-/

namespace TodoBackend

/-! ## Data model -/

/-- Identifier of a stored document (`mongoose.Schema.Types.ObjectId`). -/
abbrev ObjectId := Nat

/-- Document of `userSchema` (index.js, lines 30-33). -/
structure User where
  id : ObjectId
  username : String
  password : String
deriving DecidableEq, Repr

/-- Document of `taskSchema` (index.js, lines 35-40). -/
structure Task where
  id : ObjectId
  text : String
  status : String
  priority : String
  userId : ObjectId
deriving DecidableEq, Repr

/-- The database: both collections and the source of fresh identifiers. -/
structure Store where
  users : List User
  tasks : List Task
  nextId : ObjectId
deriving DecidableEq, Repr

/-- The database before any request. -/
def Store.empty : Store := ⟨[], [], 0⟩

/-- What `res.json(..)` is given by the handlers. -/
inductive Json where
  | message (m : String)
  | token (t : String)
  | task (t : Task)
  | tasks (ts : List Task)
deriving DecidableEq, Repr

/-- An HTTP response: status code and JSON body. -/
structure Response where
  status : Nat
  body : Json
deriving DecidableEq, Repr

/-- A value of a parsed JSON body (`express.json()`). A number is a rational:
every finite double is one, and `0` stands for both of its zeros. -/
inductive JVal where
  | null
  | bool (b : Bool)
  | number (q : ℚ)
  | str (s : String)
  | array (items : List JVal)
  | object (fields : List (String × JVal))

/-- The library functions the application calls. -/
structure Env where
  /-- The call `bcrypt.hash(password, 10)`, with the salt it draws. -/
  hash : String → Nat → String
  /-- The call `bcrypt.compare(password, stored)`. -/
  compare : String → String → Bool
  /-- The call `jwt.sign(payload, JWT_SECRET, expiresIn 1h)` for the payload
  holding `userId`, at the given time. -/
  sign : ObjectId → Nat → String
  /-- The call `jwt.verify(token, JWT_SECRET)` at the given time: `userId` of
  the decoded payload, or `none` when it throws. -/
  verify : String → Nat → Option ObjectId
  /-- Mongoose's cast to the `String` type of a schema, on a value that is not
  a string: the string it stores, or `none` when the cast fails. -/
  castOther : JVal → Option String

/-! ## JavaScript string replacement -/

/-- `String.prototype.replace` with a string pattern, on the characters: the
leftmost occurrence of `pat` is replaced by `rep`, the rest is kept. -/
def replaceFirst (pat rep : List Char) : List Char → List Char
  | [] => if pat = [] then rep else []
  | c :: cs =>
    if pat.isPrefixOf (c :: cs) then rep ++ (c :: cs).drop pat.length
    else c :: replaceFirst pat rep cs

/-- The call `s.replace(pat, rep)` for a string `pat` (and `rep` free of `$`).
A header value holds no surrogate, so characters stand for its code units. -/
def replace (s pat rep : String) : String :=
  ⟨replaceFirst pat.data rep.data s.data⟩

/-! ## Mongoose queries -/

/-- The query `User.findOne` on a username: the first user of that name. -/
def User.findOne (users : List User) (username : String) : Option User :=
  users.find? (fun u => u.username == username)

/-- The query `Task.find` on `userId`: all tasks of that owner, in store order. -/
def Task.find (tasks : List Task) (userId : ObjectId) : List Task :=
  tasks.filter (fun t => t.userId == userId)

/-- The query `Task.findOneAndDelete` on `_id` and `userId`: removes the first
task matching both and returns it, with the remaining collection. -/
def Task.findOneAndDelete (id userId : ObjectId) : List Task → Option Task × List Task
  | [] => (none, [])
  | t :: ts =>
    if t.id = id ∧ t.userId = userId then (some t, ts)
    else ((Task.findOneAndDelete id userId ts).1, t :: (Task.findOneAndDelete id userId ts).2)

/-- The query `Task.findOneAndUpdate` on `_id` and `userId` with the option
`new: true`: applies `upd` to the first task matching both and returns the
updated task, with the resulting collection. -/
def Task.findOneAndUpdate (id userId : ObjectId) (upd : Task → Task) :
    List Task → Option Task × List Task
  | [] => (none, [])
  | t :: ts =>
    if t.id = id ∧ t.userId = userId then (some (upd t), upd t :: ts)
    else ((Task.findOneAndUpdate id userId upd ts).1,
          t :: (Task.findOneAndUpdate id userId upd ts).2)

/-! ## Handlers -/

/-- The handler of `POST /register` (index.js, lines 61-74). -/
def postRegister (E : Env) (username password : String) (salt : Nat) (s : Store) :
    Response × Store :=
  match User.findOne s.users username with
  | some _ => (⟨400, .message "User already exists"⟩, s)
  | none =>
    let hashedPassword := E.hash password salt
    let user : User := ⟨s.nextId, username, hashedPassword⟩
    (⟨200, .message "User registered successfully"⟩,
      { s with users := s.users ++ [user], nextId := s.nextId + 1 })

/-- The handler of `POST /login` (index.js, lines 77-90). -/
def postLogin (E : Env) (username password : String) (now : Nat) (s : Store) :
    Response × Store :=
  match User.findOne s.users username with
  | none => (⟨401, .message "Invalid credentials"⟩, s)
  | some user =>
    if !E.compare password user.password then (⟨401, .message "Invalid credentials"⟩, s)
    else (⟨200, .token (E.sign user.id now)⟩, s)

/-- The handler of `GET /tasks` (index.js, lines 93-96). -/
def getTasks (userId : ObjectId) (s : Store) : Response × Store :=
  (⟨200, .tasks (Task.find s.tasks userId)⟩, s)

/-- JavaScript `!v` on an optional string. -/
def falsy (v : Option String) : Bool :=
  match v with
  | none => true
  | some x => x = ""

/-- JavaScript `!v` on a field of a JSON body: `undefined` (the field is
absent), `null`, `false`, `0` and the empty string are falsy, every other value
is truthy. -/
def falsyField (v : Option JVal) : Bool :=
  match v with
  | none => true
  | some .null => true
  | some (.bool b) => !b
  | some (.number q) => q = 0
  | some (.str x) => x = ""
  | some (.array _) => false
  | some (.object _) => false

/-- JavaScript `v || dflt` on a field of a JSON body, for a string `dflt`. -/
def orDefault (v : Option JVal) (dflt : String) : JVal :=
  match v with
  | none => .str dflt
  | some x => if falsyField (some x) then .str dflt else x

/-- Mongoose's cast of a value to the `String` type of `taskSchema`: a string is
kept as it is, any other value is up to the library. -/
def castString (E : Env) : JVal → Option String
  | .str x => some x
  | v => E.castOther v

/-- The handler of `POST /tasks` (index.js, lines 99-115). When a field cannot
be cast, `task.save()` rejects and the handler sends no response: nothing is
stored, and the identifier drawn by `new Task(..)` is spent. -/
def postTasks (E : Env) (text status priority : Option JVal) (userId : ObjectId)
    (s : Store) : Option Response × Store :=
  if falsyField text then (some ⟨400, .message "Task text is required"⟩, s)
  else
    match text.bind (castString E), castString E (orDefault status "pending"),
      castString E (orDefault priority "medium") with
    | some text, some status, some priority =>
      let task : Task := ⟨s.nextId, text, status, priority, userId⟩
      (some ⟨200, .task task⟩, { s with tasks := s.tasks ++ [task], nextId := s.nextId + 1 })
    | _, _, _ => (none, { s with nextId := s.nextId + 1 })

/-- The handler of `DELETE /tasks/:id` (index.js, lines 118-129). -/
def deleteTask (id : ObjectId) (userId : ObjectId) (s : Store) : Response × Store :=
  match Task.findOneAndDelete id userId s.tasks with
  | (none, _) => (⟨404, .message "Task not found"⟩, s)
  | (some _, rest) => (⟨200, .message "Task deleted successfully"⟩, { s with tasks := rest })

/-- The handler of `PATCH /tasks/:id/status` (index.js, lines 132-144). -/
def patchStatus (id : ObjectId) (status : String) (userId : ObjectId) (s : Store) :
    Response × Store :=
  match Task.findOneAndUpdate id userId (fun t => { t with status := status }) s.tasks with
  | (none, _) => (⟨404, .message "Task not found"⟩, s)
  | (some task, tasks) => (⟨200, .task task⟩, { s with tasks := tasks })

/-- The handler of `PATCH /tasks/:id/priority` (index.js, lines 147-159). -/
def patchPriority (id : ObjectId) (priority : String) (userId : ObjectId) (s : Store) :
    Response × Store :=
  match Task.findOneAndUpdate id userId (fun t => { t with priority := priority }) s.tasks with
  | (none, _) => (⟨404, .message "Task not found"⟩, s)
  | (some task, tasks) => (⟨200, .task task⟩, { s with tasks := tasks })

/-! ## Auth middleware and routing -/

/-- The token of line 48: the `Authorization` header, when there is one, with
`"Bearer "` replaced by the empty string. -/
def bearerToken (authorization : Option String) : Option String :=
  authorization.map (fun h => replace h "Bearer " "")

/-- The middleware `authMiddleware` (index.js, lines 47-58); `next` is the
handler, given `req.userId`. -/
def authMiddleware (E : Env) (now : Nat) (authorization : Option String)
    (next : ObjectId → Store → Option Response × Store) (s : Store) :
    Option Response × Store :=
  let token := bearerToken authorization
  if falsy token then (some ⟨401, .message "No token provided"⟩, s)
  else
    match E.verify (token.getD "") now with
    | some userId => next userId s
    | none => (some ⟨401, .message "Invalid token"⟩, s)

/-- A handler that always answers, as a handler that may not. -/
def answered (r : Response × Store) : Option Response × Store := (some r.1, r.2)

/-- The routes registered with `authMiddleware`, with path parameter and body. -/
inductive Route where
  | getTasks
  | postTasks (text status priority : Option JVal)
  | deleteTask (id : ObjectId)
  | patchStatus (id : ObjectId) (status : String)
  | patchPriority (id : ObjectId) (priority : String)

/-- The handler registered for a protected route. -/
def Route.handler (E : Env) : Route → ObjectId → Store → Option Response × Store
  | .getTasks => fun u s => answered (TodoBackend.getTasks u s)
  | .postTasks text status priority => TodoBackend.postTasks E text status priority
  | .deleteTask id => fun u s => answered (TodoBackend.deleteTask id u s)
  | .patchStatus id status => fun u s => answered (TodoBackend.patchStatus id status u s)
  | .patchPriority id priority => fun u s => answered (TodoBackend.patchPriority id priority u s)

/-- A request to the application. -/
inductive Request where
  | register (username password : String) (salt : Nat)
  | login (username password : String) (now : Nat)
  | secured (authorization : Option String) (now : Nat) (route : Route)

/-- The application: the response to a request, if there is one, and the store
after it. -/
def handle (E : Env) (s : Store) : Request → Option Response × Store
  | .register username password salt => answered (postRegister E username password salt s)
  | .login username password now => answered (postLogin E username password now s)
  | .secured authorization now route =>
    authMiddleware E now authorization (route.handler E) s

/-- The store after a sequence of requests, processed one after the other. -/
def run (E : Env) (s : Store) (reqs : List Request) : Store :=
  reqs.foldl (fun st r => (handle E st r).2) s

/-! ## Well-formed stores -/

/-- Identifiers of tasks are unique (the `_id` index of the collection). -/
def UniqueTaskIds (s : Store) : Prop := (s.tasks.map Task.id).Nodup

instance (s : Store) : Decidable (UniqueTaskIds s) := by
  unfold UniqueTaskIds; infer_instance

/-- Usernames are unique (the `unique` index of `userSchema`). -/
def UniqueUsernames (s : Store) : Prop := (s.users.map User.username).Nodup

instance (s : Store) : Decidable (UniqueUsernames s) := by
  unfold UniqueUsernames; infer_instance

/-- Task ids are unique and were all drawn from the generator. -/
def TaskIdsFresh (s : Store) : Prop :=
  (s.tasks.map Task.id).Nodup ∧ ∀ i ∈ s.tasks.map Task.id, i < s.nextId

/-- The text of every stored task is non-empty. -/
def TextsNonEmpty (s : Store) : Prop := ∀ x ∈ s.tasks.map Task.text, x ≠ ""

/-- The library's cast of a truthy value that is not a string is never the
empty string. -/
def CastNonEmpty (E : Env) : Prop :=
  ∀ v x, falsyField (some v) = false → E.castOther v = some x → x ≠ ""

/-- A library instance, for evaluating the handlers on concrete requests. -/
def demoEnv : Env where
  hash := fun p _ => "#" ++ p
  compare := fun p h => h == "#" ++ p
  sign := fun uid _ => if uid = 0 then "alice" else if uid = 1 then "bob" else "nobody"
  verify := fun tok _ =>
    if tok = "alice" then some 0 else if tok = "bob" then some 1 else none
  castOther := fun v =>
    match v with
    | .bool true => some "true"
    | .bool false => some "false"
    | _ => none

/-- A store with two users and a task of each. -/
def demoStore : Store :=
  ⟨[⟨0, "alice", "#pw1"⟩, ⟨1, "bob", "#pw2"⟩],
   [⟨2, "buy milk", "pending", "medium", 0⟩, ⟨3, "pay rent", "done", "high", 1⟩], 4⟩

/-! ## Lemmas on the queries -/

theorem task_eq_of_id_eq {ts : List Task} (hn : (ts.map Task.id).Nodup) {x y : Task}
    (hx : x ∈ ts) (hy : y ∈ ts) (h : x.id = y.id) : x = y :=
  List.inj_on_of_nodup_map hn hx hy h

theorem findOneAndDelete_no_match (id uid : ObjectId) (ts : List Task)
    (h : ∀ x ∈ ts, ¬ (x.id = id ∧ x.userId = uid)) :
    Task.findOneAndDelete id uid ts = (none, ts) := by
  induction ts with
  | nil => rfl
  | cons t ts ih =>
    have h1 := h t (List.mem_cons_self _ _)
    have h2 := ih (fun x hx => h x (List.mem_cons_of_mem _ hx))
    rw [Task.findOneAndDelete, if_neg h1, h2]

theorem findOneAndUpdate_no_match (id uid : ObjectId) (upd : Task → Task) (ts : List Task)
    (h : ∀ x ∈ ts, ¬ (x.id = id ∧ x.userId = uid)) :
    Task.findOneAndUpdate id uid upd ts = (none, ts) := by
  induction ts with
  | nil => rfl
  | cons t ts ih =>
    have h1 := h t (List.mem_cons_self _ _)
    have h2 := ih (fun x hx => h x (List.mem_cons_of_mem _ hx))
    rw [Task.findOneAndUpdate, if_neg h1, h2]

theorem findOneAndDelete_owned (t : Task) (ts : List Task)
    (hn : (ts.map Task.id).Nodup) (ht : t ∈ ts) :
    Task.findOneAndDelete t.id t.userId ts = (some t, ts.erase t) := by
  induction ts with
  | nil => cases ht
  | cons x xs ih =>
    by_cases hc : x.id = t.id ∧ x.userId = t.userId
    · have hxt : x = t := task_eq_of_id_eq hn (List.mem_cons_self _ _) ht hc.1
      subst hxt
      rw [Task.findOneAndDelete, if_pos hc, List.erase_cons_head]
    · have hxt : x ≠ t := fun e => hc (by subst e; exact ⟨rfl, rfl⟩)
      have ht2 : t ∈ xs := by
        rcases List.mem_cons.mp ht with e | e
        · exact absurd e.symm hxt
        · exact e
      have hn2 : (xs.map Task.id).Nodup := by
        rw [List.map_cons] at hn; exact (List.nodup_cons.mp hn).2
      rw [Task.findOneAndDelete, if_neg hc, ih hn2 ht2, List.erase_cons_tail]
      simpa using hxt

theorem map_replace_absent (t t2 : Task) (ts : List Task) (h : t ∉ ts) :
    ts.map (fun x => if x = t then t2 else x) = ts := by
  induction ts with
  | nil => rfl
  | cons x xs ih =>
    have hx : x ≠ t := fun e => h (by subst e; exact List.mem_cons_self _ _)
    have hxs : t ∉ xs := fun e => h (List.mem_cons_of_mem _ e)
    rw [List.map_cons, if_neg hx, ih hxs]

theorem findOneAndUpdate_owned (upd : Task → Task) (t : Task) (ts : List Task)
    (hn : (ts.map Task.id).Nodup) (ht : t ∈ ts) :
    Task.findOneAndUpdate t.id t.userId upd ts
      = (some (upd t), ts.map (fun x => if x = t then upd t else x)) := by
  induction ts with
  | nil => cases ht
  | cons x xs ih =>
    have hn1 := hn
    rw [List.map_cons] at hn1
    have hn2 : (xs.map Task.id).Nodup := (List.nodup_cons.mp hn1).2
    by_cases hc : x.id = t.id ∧ x.userId = t.userId
    · have hxt : x = t := task_eq_of_id_eq hn (List.mem_cons_self _ _) ht hc.1
      subst hxt
      have hnot : x ∉ xs := fun e =>
        (List.nodup_cons.mp hn1).1 (List.mem_map_of_mem Task.id e)
      rw [Task.findOneAndUpdate, if_pos hc, List.map_cons, if_pos rfl,
        map_replace_absent x (upd x) xs hnot]
    · have hxt : x ≠ t := fun e => hc (by subst e; exact ⟨rfl, rfl⟩)
      have ht2 : t ∈ xs := by
        rcases List.mem_cons.mp ht with e | e
        · exact absurd e.symm hxt
        · exact e
      rw [Task.findOneAndUpdate, if_neg hc, ih hn2 ht2, List.map_cons, if_neg hxt]

theorem no_match_of_other_owner {ts : List Task} (hn : (ts.map Task.id).Nodup)
    {t : Task} (ht : t ∈ ts) {a : ObjectId} (ha : a ≠ t.userId) :
    ∀ x ∈ ts, ¬ (x.id = t.id ∧ x.userId = a) := by
  intro x hx hc
  have hxt : x = t := task_eq_of_id_eq hn hx ht hc.1
  subst hxt
  exact ha hc.2.symm

theorem findOneAndDelete_sublist (id uid : ObjectId) (ts : List Task) :
    (Task.findOneAndDelete id uid ts).2.Sublist ts := by
  induction ts with
  | nil => exact List.Sublist.refl _
  | cons t ts ih =>
    by_cases hc : t.id = id ∧ t.userId = uid
    · rw [Task.findOneAndDelete, if_pos hc]
      exact List.sublist_cons_self t ts
    · rw [Task.findOneAndDelete, if_neg hc]
      exact ih.cons₂ t

theorem findOneAndUpdate_map {α : Type} (f : Task → α) (id uid : ObjectId)
    (upd : Task → Task) (hf : ∀ t, f (upd t) = f t) (ts : List Task) :
    (Task.findOneAndUpdate id uid upd ts).2.map f = ts.map f := by
  induction ts with
  | nil => rfl
  | cons t ts ih =>
    by_cases hc : t.id = id ∧ t.userId = uid
    · rw [Task.findOneAndUpdate, if_pos hc, List.map_cons, hf, List.map_cons]
    · rw [Task.findOneAndUpdate, if_neg hc, List.map_cons, ih, List.map_cons]

theorem deleteTask_users (id u : ObjectId) (s : Store) :
    (deleteTask id u s).2.users = s.users ∧ (deleteTask id u s).2.nextId = s.nextId := by
  unfold deleteTask
  split <;> exact ⟨rfl, rfl⟩

theorem deleteTask_sublist (id u : ObjectId) (s : Store) :
    (deleteTask id u s).2.tasks.Sublist s.tasks := by
  unfold deleteTask
  split
  · exact List.Sublist.refl _
  · next x rest heq =>
    have h := findOneAndDelete_sublist id u s.tasks
    rw [heq] at h
    exact h

theorem patchStatus_users (id u : ObjectId) (v : String) (s : Store) :
    (patchStatus id v u s).2.users = s.users ∧ (patchStatus id v u s).2.nextId = s.nextId := by
  unfold patchStatus
  split <;> exact ⟨rfl, rfl⟩

theorem patchPriority_users (id u : ObjectId) (v : String) (s : Store) :
    (patchPriority id v u s).2.users = s.users ∧
      (patchPriority id v u s).2.nextId = s.nextId := by
  unfold patchPriority
  split <;> exact ⟨rfl, rfl⟩

theorem patchStatus_map {α : Type} (f : Task → α) (hf : ∀ (t : Task) v, f { t with status := v } = f t)
    (id u : ObjectId) (v : String) (s : Store) :
    (patchStatus id v u s).2.tasks.map f = s.tasks.map f := by
  unfold patchStatus
  split
  · rfl
  · next x rest heq =>
    have h := findOneAndUpdate_map f id u (fun t => { t with status := v }) (fun t => hf t v)
      s.tasks
    rw [heq] at h
    exact h

theorem patchPriority_map {α : Type} (f : Task → α)
    (hf : ∀ (t : Task) v, f { t with priority := v } = f t)
    (id u : ObjectId) (v : String) (s : Store) :
    (patchPriority id v u s).2.tasks.map f = s.tasks.map f := by
  unfold patchPriority
  split
  · rfl
  · next x rest heq =>
    have h := findOneAndUpdate_map f id u (fun t => { t with priority := v }) (fun t => hf t v)
      s.tasks
    rw [heq] at h
    exact h

/-- An invariant kept by every request holds after every sequence of requests. -/
theorem run_invariant (E : Env) (P : Store → Prop)
    (hstep : ∀ s r, P s → P (handle E s r).2) :
    ∀ (reqs : List Request) (s : Store), P s → P (run E s reqs) := by
  intro reqs
  induction reqs with
  | nil => intro s hs; exact hs
  | cons r rs ih =>
    intro s hs
    exact ih _ (hstep s r hs)

/-- An invariant kept by every handler is kept by the middleware around it. -/
theorem authMiddleware_invariant (E : Env) (P : Store → Prop) (now : Nat)
    (authorization : Option String) (next : ObjectId → Store → Option Response × Store)
    (hnext : ∀ u s, P s → P (next u s).2) (s : Store) (hs : P s) :
    P (authMiddleware E now authorization next s).2 := by
  unfold authMiddleware
  dsimp only
  split
  · exact hs
  · split
    · exact hnext _ _ hs
    · exact hs

/-- The store after `POST /tasks`: unchanged, or only an identifier drawn, or
one task appended whose text is the cast of a truthy text. -/
theorem postTasks_store (E : Env) (text status priority : Option JVal) (u : ObjectId)
    (s : Store) :
    (postTasks E text status priority u s).2 = s ∨
    (postTasks E text status priority u s).2 = { s with nextId := s.nextId + 1 } ∨
    ∃ t st pr, falsyField text = false ∧ text.bind (castString E) = some t ∧
      (postTasks E text status priority u s).2
        = { s with tasks := s.tasks ++ [⟨s.nextId, t, st, pr, u⟩], nextId := s.nextId + 1 } := by
  unfold postTasks
  split
  · exact Or.inl rfl
  · next hf =>
    split
    · next t st pr ht _ _ =>
      exact Or.inr (Or.inr ⟨t, st, pr, by simpa using hf, ht, rfl⟩)
    · exact Or.inr (Or.inl rfl)

/-! ## Task ids stay unique -/

theorem handler_taskIdsFresh (E : Env) (route : Route) (u : ObjectId) (s : Store)
    (hs : TaskIdsFresh s) : TaskIdsFresh (route.handler E u s).2 := by
  cases route with
  | getTasks => exact hs
  | postTasks text status priority =>
    show TaskIdsFresh (postTasks E text status priority u s).2
    rcases postTasks_store E text status priority u s with h | h | ⟨t, st, pr, _, _, h⟩
    · rw [h]; exact hs
    · rw [h]; exact ⟨hs.1, fun i hi => Nat.lt_succ_of_lt (hs.2 i hi)⟩
    · rw [h]
      constructor
      · simp only [List.map_append, List.map_cons, List.map_nil]
        refine List.Nodup.append hs.1 (List.nodup_singleton _) ?_
        rw [List.disjoint_singleton]
        intro hmem
        exact absurd (hs.2 _ hmem) (Nat.lt_irrefl _)
      · intro i hi
        simp only [List.map_append, List.map_cons, List.map_nil, List.mem_append,
          List.mem_singleton] at hi
        rcases hi with hi | hi
        · exact Nat.lt_succ_of_lt (hs.2 i hi)
        · rw [hi]; exact Nat.lt_succ_self _
  | deleteTask id =>
    have hsub := (deleteTask_sublist id u s).map Task.id
    refine ⟨hs.1.sublist hsub, fun i hi => ?_⟩
    show i < (deleteTask id u s).2.nextId
    rw [(deleteTask_users id u s).2]
    exact hs.2 i (hsub.subset hi)
  | patchStatus id v =>
    show TaskIdsFresh (patchStatus id v u s).2
    unfold TaskIdsFresh
    rw [patchStatus_map Task.id (fun _ _ => rfl), (patchStatus_users id u v s).2]
    exact hs
  | patchPriority id v =>
    show TaskIdsFresh (patchPriority id v u s).2
    unfold TaskIdsFresh
    rw [patchPriority_map Task.id (fun _ _ => rfl), (patchPriority_users id u v s).2]
    exact hs

theorem handle_taskIdsFresh (E : Env) (s : Store) (r : Request) (hs : TaskIdsFresh s) :
    TaskIdsFresh (handle E s r).2 := by
  cases r with
  | register username password salt =>
    show TaskIdsFresh (postRegister E username password salt s).2
    unfold postRegister
    split
    · exact hs
    · exact ⟨hs.1, fun i hi => Nat.lt_succ_of_lt (hs.2 i hi)⟩
  | login username password now =>
    show TaskIdsFresh (postLogin E username password now s).2
    unfold postLogin
    split
    · exact hs
    · split <;> exact hs
  | secured authorization now route =>
    exact authMiddleware_invariant E TaskIdsFresh now authorization (route.handler E)
      (fun u st h => handler_taskIdsFresh E route u st h) s hs

/-- Every store reached from the empty one has unique task ids. -/
theorem run_uniqueTaskIds (E : Env) (reqs : List Request) :
    UniqueTaskIds (run E Store.empty reqs) :=
  (run_invariant E TaskIdsFresh (fun st r => handle_taskIdsFresh E st r) reqs Store.empty
    ⟨by simp [Store.empty], by simp [Store.empty]⟩).1

/-! ## Owner isolation and listing -/

/-- C1. Owner isolation on modification: in a store with unique task ids, when
task `t` is stored and owned by `b`, each of `DELETE /tasks/:id`,
`PATCH /tasks/:id/status` and `PATCH /tasks/:id/priority` issued by a caller
`a` different from `b` with the id of `t` answers 404 with the message
"Task not found" (so none of the data of `t`) and leaves the store, `t`
included, as it was. -/
theorem owner_isolation (s : Store) (a b : ObjectId) (t : Task) (status priority : String)
    (hwf : UniqueTaskIds s) (hab : a ≠ b) (ht : t ∈ s.tasks) (hb : t.userId = b) :
    deleteTask t.id a s = (⟨404, .message "Task not found"⟩, s) ∧
    patchStatus t.id status a s = (⟨404, .message "Task not found"⟩, s) ∧
    patchPriority t.id priority a s = (⟨404, .message "Task not found"⟩, s) ∧
    t ∈ (deleteTask t.id a s).2.tasks ∧
    t ∈ (patchStatus t.id status a s).2.tasks ∧
    t ∈ (patchPriority t.id priority a s).2.tasks := by
  have hno : ∀ x ∈ s.tasks, ¬ (x.id = t.id ∧ x.userId = a) :=
    no_match_of_other_owner hwf ht (by rw [hb]; exact hab)
  have hd : deleteTask t.id a s = (⟨404, .message "Task not found"⟩, s) := by
    simp only [deleteTask, findOneAndDelete_no_match t.id a s.tasks hno]
  have hs : patchStatus t.id status a s = (⟨404, .message "Task not found"⟩, s) := by
    simp only [patchStatus, findOneAndUpdate_no_match t.id a _ s.tasks hno]
  have hp : patchPriority t.id priority a s = (⟨404, .message "Task not found"⟩, s) := by
    simp only [patchPriority, findOneAndUpdate_no_match t.id a _ s.tasks hno]
  refine ⟨hd, hs, hp, ?_, ?_, ?_⟩
  · rw [hd]; exact ht
  · rw [hs]; exact ht
  · rw [hp]; exact ht

/-- Witness of C1: alice (id 0) acting on the task of bob (id 1). -/
theorem owner_isolation_witness :
    UniqueTaskIds demoStore ∧ (0 : ObjectId) ≠ 1 ∧
    deleteTask 3 0 demoStore = (⟨404, .message "Task not found"⟩, demoStore) ∧
    patchStatus 3 "done" 0 demoStore = (⟨404, .message "Task not found"⟩, demoStore) ∧
    patchPriority 3 "low" 0 demoStore = (⟨404, .message "Task not found"⟩, demoStore) :=
  have h := owner_isolation demoStore 0 1 ⟨3, "pay rent", "done", "high", 1⟩ "done" "low"
    (by decide) (by decide) (by decide) rfl
  ⟨by decide, by decide, h.1, h.2.1, h.2.2.1⟩

/-- C2. Owner-scoped listing: `GET /tasks` for caller `u` answers 200 with the
stored tasks whose owner is `u`, in store order: every such task, no task of
another owner, and the store is unchanged. -/
theorem list_owner_scoped (s : Store) (u : ObjectId) :
    getTasks u s = (⟨200, .tasks (s.tasks.filter (fun t => decide (t.userId = u)))⟩, s) ∧
    (∀ t, t ∈ s.tasks.filter (fun t => decide (t.userId = u)) ↔ t ∈ s.tasks ∧ t.userId = u) ∧
    (s.tasks.filter (fun t => decide (t.userId = u))).Sublist s.tasks := by
  refine ⟨?_, ?_, List.filter_sublist _⟩
  · simp only [getTasks, Task.find]
    congr
  · intro t
    simp [List.mem_filter]

/-! ## Auth gate -/

/-- C3. Auth gate outcomes, for every protected route: the route runs
`authMiddleware` around its handler; without a token (no header, or nothing
left of it) the answer is 401 "No token provided"; with a token that fails
verification it is 401 "Invalid token"; in both cases whatever the handler is,
and the store is unchanged; otherwise the handler is run with the `userId` of
the verified token. -/
theorem auth_gate (E : Env) (s : Store) (authorization : Option String) (now : Nat)
    (route : Route) (next : ObjectId → Store → Option Response × Store) :
    handle E s (.secured authorization now route)
      = authMiddleware E now authorization (route.handler E) s ∧
    (bearerToken authorization = none ∨ bearerToken authorization = some "" →
      authMiddleware E now authorization next s
        = (some ⟨401, .message "No token provided"⟩, s)) ∧
    (∀ tok, bearerToken authorization = some tok → tok ≠ "" → E.verify tok now = none →
      authMiddleware E now authorization next s
        = (some ⟨401, .message "Invalid token"⟩, s)) ∧
    (∀ tok userId, bearerToken authorization = some tok → tok ≠ "" →
      E.verify tok now = some userId →
      authMiddleware E now authorization next s = next userId s) := by
  refine ⟨rfl, ?_, ?_, ?_⟩
  · rintro (h | h) <;> simp [authMiddleware, h, falsy]
  · intro tok h hne hv
    simp [authMiddleware, h, falsy, hne, hv]
  · intro tok userId h hne hv
    simp [authMiddleware, h, falsy, hne, hv]

/-! ## Task creation -/

theorem cast_truthy_text (E : Env) (hE : CastNonEmpty E) (text : Option JVal) (t : String)
    (hf : falsyField text = false) (ht : text.bind (castString E) = some t) : t ≠ "" := by
  cases text with
  | none => simp [falsyField] at hf
  | some v =>
    cases v with
    | str x =>
      simp only [Option.some_bind, castString, Option.some.injEq] at ht
      simp only [falsyField, decide_eq_false_iff_not] at hf
      rw [← ht]; exact hf
    | null => exact hE _ t hf ht
    | bool b => exact hE _ t hf ht
    | number q => exact hE _ t hf ht
    | array items => exact hE _ t hf ht
    | object fields => exact hE _ t hf ht

theorem handler_textsNonEmpty (E : Env) (hE : CastNonEmpty E) (route : Route)
    (u : ObjectId) (s : Store) (hs : TextsNonEmpty s) :
    TextsNonEmpty (route.handler E u s).2 := by
  cases route with
  | getTasks => exact hs
  | postTasks text status priority =>
    show TextsNonEmpty (postTasks E text status priority u s).2
    rcases postTasks_store E text status priority u s with h | h | ⟨t, st, pr, hf, ht, h⟩
    · rw [h]; exact hs
    · rw [h]; exact hs
    · rw [h]
      intro x hx
      simp only [List.map_append, List.map_cons, List.map_nil, List.mem_append,
        List.mem_singleton] at hx
      rcases hx with hx | hx
      · exact hs x hx
      · rw [hx]
        exact cast_truthy_text E hE text t hf ht
  | deleteTask id =>
    intro x hx
    exact hs x ((deleteTask_sublist id u s).map Task.text |>.subset hx)
  | patchStatus id v =>
    show TextsNonEmpty (patchStatus id v u s).2
    unfold TextsNonEmpty
    rw [patchStatus_map Task.text (fun _ _ => rfl)]
    exact hs
  | patchPriority id v =>
    show TextsNonEmpty (patchPriority id v u s).2
    unfold TextsNonEmpty
    rw [patchPriority_map Task.text (fun _ _ => rfl)]
    exact hs

theorem handle_textsNonEmpty (E : Env) (hE : CastNonEmpty E) (s : Store) (r : Request)
    (hs : TextsNonEmpty s) : TextsNonEmpty (handle E s r).2 := by
  cases r with
  | register username password salt =>
    show TextsNonEmpty (postRegister E username password salt s).2
    unfold postRegister
    split <;> exact hs
  | login username password now =>
    show TextsNonEmpty (postLogin E username password now s).2
    unfold postLogin
    split
    · exact hs
    · split <;> exact hs
  | secured authorization now route =>
    exact authMiddleware_invariant E TextsNonEmpty now authorization (route.handler E)
      (fun u st h => handler_textsNonEmpty E hE route u st h) s hs

/-- C4, as stated, fails: a supplied status that is the empty string is not
kept, the created task is "pending". -/
theorem creation_defaults_counterexample :
    (postTasks demoEnv (some (.str "buy milk")) (some (.str "")) none 0 demoStore).1
        = some ⟨200, .task ⟨4, "buy milk", "pending", "medium", 0⟩⟩ ∧
      (⟨4, "buy milk", "pending", "medium", 0⟩ : Task).status ≠ "" := by
  decide

/-- C4, amended. Creation defaults: for every caller `u` and every body of
`POST /tasks` with non-empty text, the answer is 200 with a task that is
appended to the store, with that text and owner `u`; its status is "pending"
when the status is omitted or the empty string and otherwise the supplied
string, and its priority is "medium" when the priority is omitted or the empty
string and otherwise the supplied string. -/
theorem creation_defaults (E : Env) (text : String) (status priority : Option String)
    (u : ObjectId) (s : Store) (ht : text ≠ "") :
    ∃ task : Task,
      postTasks E (some (.str text)) (status.map .str) (priority.map .str) u s
        = (some ⟨200, .task task⟩,
            { s with tasks := s.tasks ++ [task], nextId := s.nextId + 1 }) ∧
      task.text = text ∧ task.userId = u ∧ task.id = s.nextId ∧
      (status = none ∨ status = some "" → task.status = "pending") ∧
      (∀ x, status = some x → x ≠ "" → task.status = x) ∧
      (priority = none ∨ priority = some "" → task.priority = "medium") ∧
      (∀ x, priority = some x → x ≠ "" → task.priority = x) := by
  have hdef : ∀ (v : Option String) (d : String),
      castString E (orDefault (v.map .str) d)
        = some (match v with | none => d | some x => if x = "" then d else x) := by
    intro v d
    cases v with
    | none => rfl
    | some x =>
      by_cases hx : x = "" <;> simp [orDefault, falsyField, castString, hx]
  refine ⟨⟨s.nextId, text,
      (match status with | none => "pending" | some x => if x = "" then "pending" else x),
      (match priority with | none => "medium" | some x => if x = "" then "medium" else x), u⟩,
    ?_, rfl, rfl, rfl, ?_, ?_, ?_, ?_⟩
  · have h1 : falsyField (some (JVal.str text)) = false := by simp [falsyField, ht]
    have h2 : (some (JVal.str text)).bind (castString E) = some text := rfl
    unfold postTasks
    rw [if_neg (by simp [h1]), h2, hdef status "pending", hdef priority "medium"]
  · rintro (h | h) <;> simp [h]
  · intro x h hx
    simp [h, hx]
  · rintro (h | h) <;> simp [h]
  · intro x h hx
    simp [h, hx]

/-- Witness of C4 (amended): a task created with a status and no priority. -/
theorem creation_defaults_witness :
    ("buy milk" : String) ≠ "" ∧
    ∃ task : Task,
      postTasks demoEnv (some (.str "buy milk")) (some (.str "done")) none 0 demoStore
        = (some ⟨200, .task task⟩,
            { demoStore with tasks := demoStore.tasks ++ [task],
                             nextId := demoStore.nextId + 1 }) ∧
      task.status = "done" ∧ task.priority = "medium" :=
  ⟨by decide,
    (creation_defaults demoEnv "buy milk" (some "done") none 0 demoStore (by decide)).imp
      (fun _ h => ⟨h.1, h.2.2.2.2.2.1 "done" rfl (by decide), h.2.2.2.2.2.2.1 (Or.inl rfl)⟩)⟩

/-- C9, as stated, fails: a body whose text is the number 0 has a text that is
neither missing nor the empty string, and is answered 400 with the message
"Task text is required". -/
theorem task_text_validation_counterexample :
    postTasks demoEnv (some (.number 0)) none none 0 demoStore
        = (some ⟨400, .message "Task text is required"⟩, demoStore) ∧
      (some (JVal.number 0) : Option JVal) ≠ none ∧
      (some (JVal.number 0) : Option JVal) ≠ some (.str "") := by
  refine ⟨?_, ?_, ?_⟩
  · simp [postTasks, falsyField]
  · simp
  · simp

/-- C9, amended. Task text validation: `POST /tasks` answers 400 with the
message "Task text is required" exactly when the text of the body is falsy in
JavaScript, that is missing, `null`, `false`, the number 0 or the empty
string; then no task is created and the store is unchanged; and after any
sequence of requests from the empty store every stored task has a non-empty
text, given that the cast by Mongoose of a truthy text that is not a string is
never the empty string. -/
theorem task_text_validation (text status priority : Option JVal) (u : ObjectId)
    (s : Store) (E : Env) (reqs : List Request) :
    ((postTasks E text status priority u s).1
        = some ⟨400, .message "Task text is required"⟩
      ↔ text = none ∨ text = some .null ∨ text = some (.bool false) ∨
        text = some (.number 0) ∨ text = some (.str "")) ∧
    ((postTasks E text status priority u s).1.map Response.status = some 400
      ↔ text = none ∨ text = some .null ∨ text = some (.bool false) ∨
        text = some (.number 0) ∨ text = some (.str "")) ∧
    (text = none ∨ text = some .null ∨ text = some (.bool false) ∨
        text = some (.number 0) ∨ text = some (.str "") →
      (postTasks E text status priority u s).2 = s) ∧
    (CastNonEmpty E → ∀ t ∈ (run E Store.empty reqs).tasks, t.text ≠ "") := by
  have hfalsy : falsyField text = true ↔
      (text = none ∨ text = some .null ∨ text = some (.bool false) ∨
        text = some (.number 0) ∨ text = some (.str "")) := by
    cases text with
    | none => simp [falsyField]
    | some v => cases v <;> simp [falsyField]
  have h400 : falsyField text = true →
      postTasks E text status priority u s
        = (some ⟨400, .message "Task text is required"⟩, s) := by
    intro h
    simp [postTasks, h]
  have hnot : falsyField text = false →
      (postTasks E text status priority u s).1.map Response.status ≠ some 400 := by
    intro h
    unfold postTasks
    rw [if_neg (by simp [h])]
    split <;> simp
  refine ⟨?_, ?_, ?_, ?_⟩
  · rw [← hfalsy]
    constructor
    · intro h
      cases hf : falsyField text with
      | true => rfl
      | false => exact absurd (by rw [h]; rfl) (hnot hf)
    · intro h
      rw [h400 h]
  · rw [← hfalsy]
    constructor
    · intro h
      cases hf : falsyField text with
      | true => rfl
      | false => exact absurd h (hnot hf)
    · intro h
      rw [h400 h]; rfl
  · intro h
    rw [h400 (hfalsy.mpr h)]
  · intro hE t ht
    have h := run_invariant E TextsNonEmpty (fun st r => handle_textsNonEmpty E hE st r) reqs
      Store.empty (by intro x hx; simp [Store.empty] at hx)
    exact h t.text (List.mem_map_of_mem Task.text ht)

/-- Witness of C9 (amended), with a library whose cast is not empty: the text
`false` is answered 400 and nothing is stored. -/
theorem task_text_validation_witness :
    CastNonEmpty demoEnv ∧
    (postTasks demoEnv (some (.bool false)) none none 0 demoStore).1
      = some ⟨400, .message "Task text is required"⟩ ∧
    (postTasks demoEnv (some (.bool false)) none none 0 demoStore).2 = demoStore ∧
    (∀ t ∈ (run demoEnv Store.empty
        [.register "alice" "pw1" 3,
         .secured (some "Bearer alice") 0 (.postTasks (some (.bool true)) none none)]).tasks,
      t.text ≠ "") :=
  have hE : CastNonEmpty demoEnv := by
    intro v x _ hx
    cases v with
    | bool b =>
      cases b <;> simp only [demoEnv, Option.some.injEq] at hx <;> rw [← hx] <;> decide
    | null => simp [demoEnv] at hx
    | number q => simp [demoEnv] at hx
    | str y => simp [demoEnv] at hx
    | array items => simp [demoEnv] at hx
    | object fields => simp [demoEnv] at hx
  have h := task_text_validation (some (.bool false)) none none 0 demoStore demoEnv
    [.register "alice" "pw1" 3,
     .secured (some "Bearer alice") 0 (.postTasks (some (.bool true)) none none)]
  ⟨hE, h.1.mpr (Or.inr (Or.inr (Or.inl rfl))), h.2.2.1 (Or.inr (Or.inr (Or.inl rfl))),
    h.2.2.2 hE⟩

/-! ## Update and delete by the owner -/

/-- C5. Single-field update with frame: in a store with unique task ids, for a
stored task `t` owned by the caller `u`, `PATCH /tasks/:id/status` with status
`v` answers 200 with `t` where only the status is replaced by `v` (same id,
text, priority and owner); the resulting store holds that task in the place of
`t`, every other task unchanged, and as many tasks as before. The same holds of
`PATCH /tasks/:id/priority` and the priority. -/
theorem single_field_update (s : Store) (u : ObjectId) (t : Task) (v : String)
    (hwf : UniqueTaskIds s) (ht : t ∈ s.tasks) (hu : t.userId = u) :
    (patchStatus t.id v u s
        = (⟨200, .task { t with status := v }⟩,
            { s with
              tasks := s.tasks.map
                (fun x => if x = t then { t with status := v } else x) }) ∧
      (patchStatus t.id v u s).2.tasks.length = s.tasks.length ∧
      (∀ (k : Nat) (x : Task), s.tasks[k]? = some x → x ≠ t → (patchStatus t.id v u s).2.tasks[k]? = some x) ∧
      (∀ k : Nat, s.tasks[k]? = some t →
        (patchStatus t.id v u s).2.tasks[k]? = some { t with status := v })) ∧
    (patchPriority t.id v u s
        = (⟨200, .task { t with priority := v }⟩,
            { s with
              tasks := s.tasks.map
                (fun x => if x = t then { t with priority := v } else x) }) ∧
      (patchPriority t.id v u s).2.tasks.length = s.tasks.length ∧
      (∀ (k : Nat) (x : Task), s.tasks[k]? = some x → x ≠ t →
        (patchPriority t.id v u s).2.tasks[k]? = some x) ∧
      (∀ k : Nat, s.tasks[k]? = some t →
        (patchPriority t.id v u s).2.tasks[k]? = some { t with priority := v })) := by
  subst hu
  have hs : patchStatus t.id v t.userId s
      = (⟨200, .task { t with status := v }⟩,
          { s with
            tasks := s.tasks.map
              (fun x => if x = t then { t with status := v } else x) }) := by
    simp only [patchStatus,
      findOneAndUpdate_owned (fun x => { x with status := v }) t s.tasks hwf ht]
  have hp : patchPriority t.id v t.userId s
      = (⟨200, .task { t with priority := v }⟩,
          { s with
            tasks := s.tasks.map
              (fun x => if x = t then { t with priority := v } else x) }) := by
    simp only [patchPriority,
      findOneAndUpdate_owned (fun x => { x with priority := v }) t s.tasks hwf ht]
  refine ⟨⟨hs, ?_, ?_, ?_⟩, ⟨hp, ?_, ?_, ?_⟩⟩
  · rw [hs]; simp
  · intro k x hk hx
    rw [hs]; simp [hk, hx]
  · intro k hk
    rw [hs]; simp [hk]
  · rw [hp]; simp
  · intro k x hk hx
    rw [hp]; simp [hk, hx]
  · intro k hk
    rw [hp]; simp [hk]

/-- Witness of C5: alice marks her task done. -/
theorem single_field_update_witness :
    UniqueTaskIds demoStore ∧
    patchStatus 2 "done" 0 demoStore
      = (⟨200, .task ⟨2, "buy milk", "done", "medium", 0⟩⟩,
          { demoStore with tasks :=
              [⟨2, "buy milk", "done", "medium", 0⟩, ⟨3, "pay rent", "done", "high", 1⟩] }) :=
  ⟨by decide,
    (single_field_update demoStore 0 ⟨2, "buy milk", "pending", "medium", 0⟩ "done"
      (by decide) (by decide) rfl).1.1.trans (by decide)⟩

/-- C6. Delete then delete again: in a store with unique task ids, for a stored
task `t` owned by the caller `u`, `DELETE /tasks/:id` answers 200 with the
message "Task deleted successfully" and the store becomes the previous one
with exactly `t` removed (the other tasks in their order, the users
unchanged); a second `DELETE` with the same id and caller answers 404 with the
message "Task not found" and leaves that store unchanged. -/
theorem delete_twice (s : Store) (u : ObjectId) (t : Task)
    (hwf : UniqueTaskIds s) (ht : t ∈ s.tasks) (hu : t.userId = u) :
    deleteTask t.id u s
      = (⟨200, .message "Task deleted successfully"⟩, { s with tasks := s.tasks.erase t }) ∧
    (∀ x, x ∈ s.tasks.erase t ↔ x ∈ s.tasks ∧ x ≠ t) ∧
    (s.tasks.erase t).Sublist s.tasks ∧
    (s.tasks.erase t).length + 1 = s.tasks.length ∧
    (deleteTask t.id u s).2.users = s.users ∧
    deleteTask t.id u (deleteTask t.id u s).2
      = (⟨404, .message "Task not found"⟩, (deleteTask t.id u s).2) := by
  subst hu
  have hnd : s.tasks.Nodup := List.Nodup.of_map Task.id hwf
  have hd : deleteTask t.id t.userId s
      = (⟨200, .message "Task deleted successfully"⟩,
          { s with tasks := s.tasks.erase t }) := by
    simp only [deleteTask, findOneAndDelete_owned t s.tasks hwf ht]
  have hmem : ∀ x, x ∈ s.tasks.erase t ↔ x ∈ s.tasks ∧ x ≠ t := by
    intro x
    rw [hnd.mem_erase_iff]
    exact And.comm
  refine ⟨hd, hmem, List.erase_sublist t s.tasks, ?_, ?_, ?_⟩
  · rw [List.length_erase_of_mem ht]
    have : 0 < s.tasks.length := List.length_pos_of_mem ht
    omega
  · rw [hd]
  · rw [hd]
    have hno : ∀ x ∈ s.tasks.erase t, ¬ (x.id = t.id ∧ x.userId = t.userId) := by
      intro x hx hc
      have hx2 := (hmem x).mp hx
      exact hx2.2 (task_eq_of_id_eq hwf hx2.1 ht hc.1)
    simp only [deleteTask, findOneAndDelete_no_match t.id t.userId _ hno]

/-- Witness of C6: alice deletes her task, twice. -/
theorem delete_twice_witness :
    UniqueTaskIds demoStore ∧
    deleteTask 2 0 demoStore
      = (⟨200, .message "Task deleted successfully"⟩,
          { demoStore with tasks := [⟨3, "pay rent", "done", "high", 1⟩] }) ∧
    deleteTask 2 0 (deleteTask 2 0 demoStore).2
      = (⟨404, .message "Task not found"⟩, (deleteTask 2 0 demoStore).2) :=
  have h := delete_twice demoStore 0 ⟨2, "buy milk", "pending", "medium", 0⟩
    (by decide) (by decide) rfl
  ⟨by decide, h.1.trans (by decide), h.2.2.2.2.2⟩

/-! ## Users: registration and login -/

theorem findOne_eq_none_iff (us : List User) (n : String) :
    User.findOne us n = none ↔ ∀ u ∈ us, u.username ≠ n := by
  simp [User.findOne, List.find?_eq_none]

theorem findOne_some {us : List User} {n : String} {u : User}
    (h : User.findOne us n = some u) : u ∈ us ∧ u.username = n := by
  unfold User.findOne at h
  refine ⟨List.mem_of_find?_eq_some h, ?_⟩
  have := List.find?_some h
  simpa using this

theorem findOne_of_mem {us : List User} (hn : (us.map User.username).Nodup) {u : User}
    (hu : u ∈ us) : User.findOne us u.username = some u := by
  cases hf : User.findOne us u.username with
  | none => exact absurd rfl ((findOne_eq_none_iff us u.username).mp hf u hu)
  | some w =>
    have hw := findOne_some hf
    rw [List.inj_on_of_nodup_map hn hw.1 hu hw.2]

theorem handler_users (E : Env) (route : Route) (u : ObjectId) (s : Store) :
    (route.handler E u s).2.users = s.users := by
  cases route with
  | getTasks => rfl
  | postTasks text status priority =>
    show (postTasks E text status priority u s).2.users = s.users
    rcases postTasks_store E text status priority u s with h | h | ⟨t, st, pr, _, _, h⟩ <;>
      rw [h]
  | deleteTask id => exact (deleteTask_users id u s).1
  | patchStatus id v => exact (patchStatus_users id u v s).1
  | patchPriority id v => exact (patchPriority_users id u v s).1

/-- A request leaves the users as they are or appends one user with a new name. -/
theorem handle_users (E : Env) (s : Store) (r : Request) :
    (handle E s r).2.users = s.users ∨
    ∃ u, User.findOne s.users u.username = none ∧ (handle E s r).2.users = s.users ++ [u] := by
  cases r with
  | register username password salt =>
    show (postRegister E username password salt s).2.users = s.users ∨ _
    cases hf : User.findOne s.users username with
    | some w => left; simp [postRegister, hf]
    | none =>
      right
      refine ⟨⟨s.nextId, username, E.hash password salt⟩, hf, ?_⟩
      show (postRegister E username password salt s).2.users = _
      simp [postRegister, hf]
  | login username password now =>
    left
    show (postLogin E username password now s).2.users = s.users
    unfold postLogin
    split
    · rfl
    · split <;> rfl
  | secured authorization now route =>
    left
    exact authMiddleware_invariant E (fun st => st.users = s.users) now authorization
      (route.handler E) (fun u st h => (handler_users E route u st).trans h) s rfl

theorem handle_uniqueUsernames (E : Env) (s : Store) (r : Request)
    (hs : UniqueUsernames s) : UniqueUsernames (handle E s r).2 := by
  unfold UniqueUsernames at *
  rcases handle_users E s r with h | ⟨u, hf, h⟩
  · rw [h]; exact hs
  · rw [h, List.map_append, List.map_cons, List.map_nil]
    refine List.Nodup.append hs (List.nodup_singleton _) ?_
    rw [List.disjoint_singleton]
    intro hmem
    obtain ⟨w, hw, hwn⟩ := List.mem_map.mp hmem
    exact (findOne_eq_none_iff s.users u.username).mp hf w hw hwn

theorem handle_keeps_user (E : Env) (n : String) (s : Store) (r : Request)
    (hs : ∃ u ∈ s.users, u.username = n) : ∃ u ∈ (handle E s r).2.users, u.username = n := by
  obtain ⟨u, hu, hn⟩ := hs
  rcases handle_users E s r with h | ⟨w, _, h⟩
  · exact ⟨u, by rw [h]; exact hu, hn⟩
  · exact ⟨u, by rw [h]; exact List.mem_append_left _ hu, hn⟩

theorem postRegister_existing (E : Env) (n p : String) (salt : Nat) (s : Store)
    (hs : ∃ u ∈ s.users, u.username = n) :
    postRegister E n p salt s = (⟨400, .message "User already exists"⟩, s) := by
  cases hf : User.findOne s.users n with
  | none =>
    obtain ⟨u, hu, hn⟩ := hs
    exact absurd hn ((findOne_eq_none_iff s.users n).mp hf u hu)
  | some w => simp [postRegister, hf]

/-- C7. Duplicate registration: in a store with no user named `n`,
`POST /register` with username `n` and password `p` answers 200 and appends
exactly one user, named `n`, whose stored password is what `bcrypt.hash`
returns on `p` (the `password` of the body is not what is stored); a later
`POST /register` with the same username and
any password, after any requests in between, answers 400 with the message
"User already exists" and leaves the store unchanged. And in every store
reached from the empty one by a sequence of requests, usernames are unique. -/
theorem duplicate_registration (E : Env) (s : Store) (n p : String) (salt : Nat)
    (hfree : ∀ u ∈ s.users, u.username ≠ n) :
    postRegister E n p salt s
      = (⟨200, .message "User registered successfully"⟩,
          { s with users := s.users ++ [⟨s.nextId, n, E.hash p salt⟩],
                   nextId := s.nextId + 1 }) ∧
    (∀ (reqs : List Request) (p2 : String) (salt2 : Nat),
      postRegister E n p2 salt2 (run E (postRegister E n p salt s).2 reqs)
        = (⟨400, .message "User already exists"⟩,
            run E (postRegister E n p salt s).2 reqs)) ∧
    (∀ reqs : List Request, UniqueUsernames (run E Store.empty reqs)) := by
  have hf : User.findOne s.users n = none := (findOne_eq_none_iff s.users n).mpr hfree
  have h1 : postRegister E n p salt s
      = (⟨200, .message "User registered successfully"⟩,
          { s with users := s.users ++ [⟨s.nextId, n, E.hash p salt⟩],
                   nextId := s.nextId + 1 }) := by
    simp [postRegister, hf]
  refine ⟨h1, ?_, ?_⟩
  · intro reqs p2 salt2
    apply postRegister_existing
    refine run_invariant E (fun st => ∃ u ∈ st.users, u.username = n)
      (fun st r => handle_keeps_user E n st r) reqs _ ?_
    rw [h1]
    exact ⟨⟨s.nextId, n, E.hash p salt⟩, by simp, rfl⟩
  · intro reqs
    exact run_invariant E UniqueUsernames (fun st r => handle_uniqueUsernames E st r) reqs
      Store.empty (by simp [UniqueUsernames, Store.empty])

/-- Witness of C7: carol registers, then registers again after a login. -/
theorem duplicate_registration_witness :
    (∀ u ∈ demoStore.users, u.username ≠ "carol") ∧
    (postRegister demoEnv "carol" "pw3" 7 demoStore).1
      = ⟨200, .message "User registered successfully"⟩ ∧
    (postRegister demoEnv "carol" "other" 8
        (run demoEnv (postRegister demoEnv "carol" "pw3" 7 demoStore).2
          [.login "carol" "pw3" 0])).1
      = ⟨400, .message "User already exists"⟩ :=
  have h := duplicate_registration demoEnv demoStore "carol" "pw3" 7 (by decide)
  ⟨by decide, congrArg Prod.fst h.1, congrArg Prod.fst (h.2.1 [.login "carol" "pw3" 0] "other" 8)⟩

/-- C8. Login outcome: in a store with unique usernames, `POST /login` answers
200 with a token exactly when a user with that username is stored and the
password verifies against the stored hash of that user, and the token is then
the one signed for the id of that user; when there is no such user and when the
password does not verify, the answer is the same 401 with the message
"Invalid credentials"; the store is unchanged in every case. -/
theorem login_outcome (E : Env) (s : Store) (n p : String) (now : Nat)
    (hwf : UniqueUsernames s) :
    (postLogin E n p now s).2 = s ∧
    (∀ u ∈ s.users, u.username = n → E.compare p u.password = true →
      (postLogin E n p now s).1 = ⟨200, .token (E.sign u.id now)⟩) ∧
    ((∀ u ∈ s.users, u.username ≠ n) →
      (postLogin E n p now s).1 = ⟨401, .message "Invalid credentials"⟩) ∧
    (∀ u ∈ s.users, u.username = n → E.compare p u.password = false →
      (postLogin E n p now s).1 = ⟨401, .message "Invalid credentials"⟩) ∧
    ((∃ tok, (postLogin E n p now s).1 = ⟨200, .token tok⟩) ↔
      ∃ u ∈ s.users, u.username = n ∧ E.compare p u.password = true) := by
  have hstore : (postLogin E n p now s).2 = s := by
    unfold postLogin
    split
    · rfl
    · split <;> rfl
  have hok : ∀ u ∈ s.users, u.username = n → E.compare p u.password = true →
      (postLogin E n p now s).1 = ⟨200, .token (E.sign u.id now)⟩ := by
    intro u hu hn hc
    subst hn
    simp [postLogin, findOne_of_mem hwf hu, hc]
  have hbad : ∀ u ∈ s.users, u.username = n → E.compare p u.password = false →
      (postLogin E n p now s).1 = ⟨401, .message "Invalid credentials"⟩ := by
    intro u hu hn hc
    subst hn
    simp [postLogin, findOne_of_mem hwf hu, hc]
  have hnone : (∀ u ∈ s.users, u.username ≠ n) →
      (postLogin E n p now s).1 = ⟨401, .message "Invalid credentials"⟩ := by
    intro h
    simp [postLogin, (findOne_eq_none_iff s.users n).mpr h]
  refine ⟨hstore, hok, hnone, hbad, ?_, ?_⟩
  · rintro ⟨tok, htok⟩
    by_contra hcon
    have h401 : (postLogin E n p now s).1 = ⟨401, .message "Invalid credentials"⟩ := by
      by_cases hex : ∃ u ∈ s.users, u.username = n
      · obtain ⟨u, hu, hn⟩ := hex
        apply hbad u hu hn
        cases hc : E.compare p u.password with
        | false => rfl
        | true => exact absurd ⟨u, hu, hn, hc⟩ hcon
      · exact hnone (fun u hu hn => hex ⟨u, hu, hn⟩)
    rw [h401] at htok
    simp at htok
  · rintro ⟨u, hu, hn, hc⟩
    exact ⟨_, hok u hu hn hc⟩

/-- Witness of C8: alice logs in with her password. -/
theorem login_outcome_witness :
    UniqueUsernames demoStore ∧
    (postLogin demoEnv "alice" "pw1" 5 demoStore).1 = ⟨200, .token "alice"⟩ ∧
    (postLogin demoEnv "alice" "pw1" 5 demoStore).2 = demoStore :=
  have h := login_outcome demoEnv demoStore "alice" "pw1" 5 (by decide)
  ⟨by decide, h.2.1 ⟨0, "alice", "#pw1"⟩ (by decide) rfl (by decide), h.1⟩

/-! ## The bearer token -/

theorem replaceFirst_leftmost (pat rep : List Char) (b : List Char) :
    ∀ a : List Char,
      (∀ a1 a2, a = a1 ++ a2 → a2 ≠ [] → pat.isPrefixOf (a2 ++ pat ++ b) = false) →
      replaceFirst pat rep (a ++ pat ++ b) = a ++ rep ++ b := by
  intro a
  induction a with
  | nil =>
    intro _
    cases hl : pat ++ b with
    | nil =>
      have hp : pat = [] := (List.append_eq_nil.mp hl).1
      have hb : b = [] := (List.append_eq_nil.mp hl).2
      simp [hl, replaceFirst, hp, hb]
    | cons c cs =>
      have hpre : pat.isPrefixOf (c :: cs) = true := by
        rw [← hl, List.isPrefixOf_iff_prefix]
        exact List.prefix_append pat b
      simp only [List.nil_append, hl, replaceFirst, hpre, if_true]
      rw [← hl, List.drop_left]
  | cons x a ih =>
    intro h
    have hx := h [] (x :: a) rfl (List.cons_ne_nil x a)
    have hrec := ih (fun a1 a2 e hne => h (x :: a1) a2 (by rw [e]; rfl) hne)
    simp only [List.cons_append, List.append_assoc] at hx hrec ⊢
    rw [replaceFirst, hx]
    simp only [Bool.false_eq_true, if_false]
    rw [hrec]

theorem replaceFirst_absent (pat rep : List Char) (hne : pat ≠ []) :
    ∀ l : List Char, (∀ a b, l ≠ a ++ pat ++ b) → replaceFirst pat rep l = l := by
  intro l
  induction l with
  | nil => intro _; simp [replaceFirst, hne]
  | cons c cs ih =>
    intro h
    have hpre : pat.isPrefixOf (c :: cs) = false := by
      cases hp : pat.isPrefixOf (c :: cs) with
      | false => rfl
      | true =>
        obtain ⟨t, ht⟩ := List.isPrefixOf_iff_prefix.mp hp
        exact absurd (by simpa using ht.symm) (h [] t)
    have hrec := ih (fun a b e => h (c :: a) b (by rw [e]; rfl))
    rw [replaceFirst, hpre]
    simp only [Bool.false_eq_true, if_false]
    rw [hrec]

/-- C10, as stated, fails: a header that does not start with "Bearer " but
holds it further on is not handed over unchanged. -/
theorem bearer_strip_counterexample :
    ("Bearer ".data.isPrefixOf "Basic Bearer abc".data) = false ∧
      bearerToken (some "Basic Bearer abc") = some "Basic abc" ∧
      ("Basic abc" : String) ≠ "Basic Bearer abc" := by
  decide

/-- C10, amended. For every value `h` of the `Authorization` header, the token
handed to verification is `h` with the leftmost occurrence of "Bearer "
removed: when `h` is "Bearer " followed by `t` the token is `t`; when `h` is
`a`, "Bearer ", `b` and no occurrence of "Bearer " starts inside `a`, the token
is `a` followed by `b`; when "Bearer " does not occur in `h` the token is `h`;
and without a header there is no token. -/
theorem bearer_strip (h : String) :
    (∀ t : String, h = "Bearer " ++ t → bearerToken (some h) = some t) ∧
    (∀ a b : String, h = a ++ "Bearer " ++ b →
      (∀ a1 a2 d : String, a = a1 ++ a2 → a2 ≠ "" → a2 ++ "Bearer " ++ b ≠ "Bearer " ++ d) →
      bearerToken (some h) = some (a ++ b)) ∧
    ((∀ a b : String, h ≠ a ++ "Bearer " ++ b) → bearerToken (some h) = some h) ∧
    bearerToken none = none := by
  have key : ∀ a b : String, h = a ++ "Bearer " ++ b →
      (∀ a1 a2 d : String, a = a1 ++ a2 → a2 ≠ "" → a2 ++ "Bearer " ++ b ≠ "Bearer " ++ d) →
      bearerToken (some h) = some (a ++ b) := by
    intro a b hab hfirst
    have hl := replaceFirst_leftmost "Bearer ".data [] b.data a.data (by
      intro a1 a2 e hne
      cases hp : "Bearer ".data.isPrefixOf (a2 ++ "Bearer ".data ++ b.data) with
      | false => rfl
      | true =>
        obtain ⟨d, hd⟩ := List.isPrefixOf_iff_prefix.mp hp
        refine absurd ?_ (hfirst ⟨a1⟩ ⟨a2⟩ ⟨d⟩ ?_ ?_)
        · apply String.ext
          simp only [String.data_append]
          exact hd.symm
        · apply String.ext
          simp only [String.data_append]
          exact e
        · intro e2
          exact hne (congrArg String.data e2))
    simp only [bearerToken, Option.map_some', replace, Option.some.injEq]
    apply String.ext
    rw [hab]
    simp only [String.data_append]
    simpa using hl
  refine ⟨?_, key, ?_, rfl⟩
  · intro t ht
    have := key "" t (by simpa using ht) (by
      intro a1 a2 d e hne
      have h2 : a2.data = [] := by
        have := congrArg String.data e
        simp only [String.data_append] at this
        exact (List.append_eq_nil.mp this.symm).2
      exact absurd (String.ext h2) hne)
    simpa using this
  · intro habs
    simp only [bearerToken, Option.map_some', replace, Option.some.injEq]
    apply String.ext
    refine replaceFirst_absent "Bearer ".data _ (by decide) h.data ?_
    intro a b e
    refine habs ⟨a⟩ ⟨b⟩ ?_
    apply String.ext
    simp only [String.data_append]
    exact e

end TodoBackend
